import Mathlib

/-!
Verification of the conversation-turn compactor, nearest-neighbor restroom
selector, haversine distances, LLM-call error handling, and the rating-message
parse path of the line-parking-bot repository, as a shallow embedding in Lean.

The embedding follows `src/agent/chatbot.py` (filter_conversation and its
inner predicate `_is_conversation_turn_end`), `src/main.py` (haversine,
find_nearby_toilets, call_llm, the 評分準備 branch of handle_message), and
`src/parking_mcp_server/parking_mcp.py` (_haversine_meters).
-/

namespace ParkingBot

/-! ## Data model: conversation messages

`langchain` messages are distinct classes (`HumanMessage`, `AIMessage`,
`SystemMessage`, `ToolMessage`); the compactor only tests class membership via
`isinstance`, the `tool_calls` list of an `AIMessage` (truthiness = nonempty),
and `additional_kwargs.get("is_reflect", False)`.  We model the class by a
`Role` tag, `tool_calls` as a list of call identifiers, and the reflection
marker as a boolean field. -/

inductive Role where
  | user
  | assistant
  | system
  | tool
deriving DecidableEq, Repr

structure Message where
  role : Role
  content : String
  tool_calls : List String
  is_reflect : Bool
deriving DecidableEq, Repr

instance : Inhabited Message := ⟨⟨Role.user, "", [], false⟩⟩

/-! ## The conversation-turn compactor (src/agent/chatbot.py lines 130-158) -/

/-- Embedding of the inner predicate `_is_conversation_turn_end` of
`filter_conversation`:

    if not isinstance(current_msg, AIMessage) or current_msg.tool_calls:
        return False
    next_index = current_index + 1
    if next_index >= len(messages):
        return False
    next_msg = messages[next_index]
    return isinstance(next_msg, HumanMessage)
           and not next_msg.additional_kwargs.get("is_reflect", False)
-/
def _is_conversation_turn_end (current_msg : Message) (messages : List Message)
    (current_index : Nat) : Bool :=
  if !(current_msg.role == Role.assistant) || !current_msg.tool_calls.isEmpty then
    false
  else
    match messages[current_index + 1]? with
    | none => false
    | some next_msg => next_msg.role == Role.user && !next_msg.is_reflect

/-- One iteration of the `for current_index, current_msg in enumerate(messages)`
loop body of `filter_conversation`.  The accumulator pairs the `result` list
with the `current_chunk` list. -/
def fc_step (messages : List Message) (acc : List Message × List Message)
    (p : Nat × Message) : List Message × List Message :=
  let result := acc.1
  let current_chunk := acc.2 ++ [p.2]
  if _is_conversation_turn_end p.2 messages p.1 then
    (result ++ [current_chunk.headI, current_chunk.getLastI], [])
  else
    (result, current_chunk)

/-- Embedding of `filter_conversation` (src/agent/chatbot.py):

    result = []
    current_chunk = []
    for current_index, current_msg in enumerate(messages):
        current_chunk.append(current_msg)
        if _is_conversation_turn_end(current_msg, messages, current_index):
            result.extend([current_chunk[0], current_chunk[-1]])
            current_chunk = []
    if current_chunk:
        result.extend(current_chunk)
    return result

Note `result.extend([chunk[0], chunk[-1]])` is modelled by appending
`[chunk.headI, chunk.getLastI]`; the chunk is nonempty at that point, so the
`Inhabited` defaults are never consulted. -/
def filter_conversation (messages : List Message) : List Message :=
  let acc := messages.enum.foldl (fc_step messages) ([], [])
  acc.1 ++ acc.2

/-! ### A structurally recursive view of the same pass

The predicate only ever inspects the current message and the immediately
following one, so the indexed loop is equivalent to a recursion on the list
that looks one message ahead.  All inductive proofs go through this view. -/

/-- The closure condition expressed on the current message and the optional
next message (`messages[current_index + 1]?`). -/
def turn_end_next (current_msg : Message) (next? : Option Message) : Bool :=
  if !(current_msg.role == Role.assistant) || !current_msg.tool_calls.isEmpty then
    false
  else
    match next? with
    | none => false
    | some next_msg => next_msg.role == Role.user && !next_msg.is_reflect

/-- List-recursive formulation of the compactor pass, carrying the open chunk. -/
def fcL (current_chunk : List Message) : List Message → List Message
  | [] => current_chunk
  | m :: rest =>
    if turn_end_next m rest.head? then
      (current_chunk ++ [m]).headI :: (current_chunk ++ [m]).getLastI :: fcL [] rest
    else
      fcL (current_chunk ++ [m]) rest

/-! ### The compactor as described by the specification (§4.3)

For the refinement claim we state the spec's algorithm in its own words and
prove it coincides with the code's pass.  Spec §4.3 step 2: "A chunk closes —
is considered a completed turn — at message index i when: the message at i is
an assistant message, it carries no pending tool-call request, and the very
next message (i+1) exists and is a user message NOT marked as a
system-injected reflection." -/

def spec_closes_at (messages : List Message) (i : Nat) : Bool :=
  match messages[i]?, messages[i + 1]? with
  | some cur, some next =>
      cur.role == Role.assistant && cur.tool_calls.isEmpty
        && (next.role == Role.user && !next.is_reflect)
  | _, _ => false

/-- Spec §4.3 steps 1-5: walk the message list in order accumulating a chunk;
on closure emit the chunk's first and last message and start a new chunk at
i + 1; at end of input emit any open chunk in full, unmodified. -/
def spec_compact_go (messages : List Message) (i : Nat) (chunk : List Message) :
    List Message :=
  if h : i < messages.length then
    let m := messages[i]
    if spec_closes_at messages i then
      (chunk ++ [m]).headI :: (chunk ++ [m]).getLastI :: spec_compact_go messages (i + 1) []
    else
      spec_compact_go messages (i + 1) (chunk ++ [m])
  else
    chunk
termination_by messages.length - i

def spec_compact (messages : List Message) : List Message :=
  spec_compact_go messages 0 []

/-! ### Concrete messages used in examples -/

/-- A genuine (non-reflection) user message. -/
def msgU (s : String) : Message := ⟨Role.user, s, [], false⟩

/-- An assistant message with no pending tool call. -/
def msgA (s : String) : Message := ⟨Role.assistant, s, [], false⟩

/-- An assistant message carrying a pending tool call. -/
def msgT (s : String) (call : String) : Message := ⟨Role.assistant, s, [call], false⟩

/-- A user message marked as a system-injected reflection. -/
def msgR (s : String) : Message := ⟨Role.user, s, [], true⟩

/-- The spec's end-to-end scenario log [U:"A", AI:"B" (no tool call), U:"C", AI:"D"]. -/
def example_ABCD : List Message := [msgU "A", msgA "B", msgU "C", msgA "D"]

/-- C2 counterexample input: the log starts with a closing assistant message,
so the very first chunk closes with length 1 and `result.extend([chunk[0],
chunk[-1]])` emits that message twice. -/
def cex_assistant_first : List Message := [msgA "B0", msgU "C0"]

/-- C3 counterexample input: a closing chunk of length 1. -/
def cex_single_chunk : List Message := [msgA "E", msgU "F"]

/-- The spec's reflection scenario: [user:"hi", assistant:"hello",
user(reflect):"note"]. -/
def example_reflect : List Message := [msgU "hi", msgA "hello", msgR "note"]

/-! ### Idempotence of the compactor

The pass only ever closes on an (assistant, genuine-user) adjacent pair.  Its
output consists of first/last pairs of closed chunks followed by the open
chunk; re-scanning it closes exactly at the emitted last elements again, so a
second pass is the identity on the first pass's output. -/

/-- The adjacent pair (a, b) does not close a turn. -/
def no_close (a b : Message) : Prop := turn_end_next a (some b) = false

/-! ## Geo-distance utilities

`src/main.py` line 168: haversine with R = 6371 km, result scaled by 1000 to
meters, using `2 * atan2(sqrt(a), sqrt(1 - a))`; `src/parking_mcp_server/
parking_mcp.py` line 66: `_haversine_meters` with R = 6 371 000 m using
`2 * R * asin(sqrt(a))`.  Python floats are modelled by real numbers. -/

/-- `math.radians`: degrees to radians. -/
noncomputable def radians (x : ℝ) : ℝ := x * (Real.pi / 180)

/-- `math.atan2 y x`, the argument of the point (x, y). -/
noncomputable def atan2 (y x : ℝ) : ℝ := Complex.arg ⟨x, y⟩

/-- `haversine` from src/main.py (計算兩點間距離（公尺）):

    R = 6371  # km
    dlat = radians(lat2 - lat1)
    dlon = radians(lon2 - lon1)
    a = sin(dlat/2)**2 + cos(radians(lat1)) * cos(radians(lat2)) * sin(dlon/2)**2
    c = 2 * atan2(sqrt(a), sqrt(1 - a))
    return R * c * 1000  # meters
-/
noncomputable def haversine (lat1 lon1 lat2 lon2 : ℝ) : ℝ :=
  let R : ℝ := 6371
  let dlat := radians (lat2 - lat1)
  let dlon := radians (lon2 - lon1)
  let a := Real.sin (dlat / 2) ^ 2
    + Real.cos (radians lat1) * Real.cos (radians lat2) * Real.sin (dlon / 2) ^ 2
  let c := 2 * atan2 (Real.sqrt a) (Real.sqrt (1 - a))
  R * c * 1000

/-- `_haversine_meters` from src/parking_mcp_server/parking_mcp.py:

    R = 6371000.0
    p1, p2 = math.radians(lat1), math.radians(lat2)
    dphi = math.radians(lat2 - lat1)
    dlmb = math.radians(lon2 - lon1)
    a = math.sin(dphi/2)**2 + math.cos(p1)*math.cos(p2)*math.sin(dlmb/2)**2
    return 2 * R * math.asin(math.sqrt(a))
-/
noncomputable def _haversine_meters (lat1 lon1 lat2 lon2 : ℝ) : ℝ :=
  let R : ℝ := 6371000
  let p1 := radians lat1
  let p2 := radians lat2
  let dphi := radians (lat2 - lat1)
  let dlmb := radians (lon2 - lon1)
  let a := Real.sin (dphi / 2) ^ 2 + Real.cos p1 * Real.cos p2 * Real.sin (dlmb / 2) ^ 2
  2 * R * Real.arcsin (Real.sqrt a)

/-! ## Nearest-neighbor restroom selector (src/main.py lines 177-186)

`find_nearby_toilets` copies the static table, adds a 距離 column computed by
`haversine` from the query point to each row's (緯度, 經度), sorts ascending by
that column and keeps the first `top_n` rows (default 5).  A row is modelled
by its used columns; the returned frame is modelled as the list of
(row, distance) pairs.  pandas' `sort_values` default kind is quicksort, which
fixes no tie order; the model uses an insertion sort, fixing one admissible
order — no claim about tie-breaking is proved from it. -/

structure ToiletRow where
  name : String
  address : String
  lat : ℝ
  lon : ℝ

/-- Comparison on the computed 距離 column. -/
def distLE (p q : ToiletRow × ℝ) : Prop := p.2 ≤ q.2

noncomputable instance : DecidableRel distLE := fun p q => Real.decidableLE p.2 q.2

instance : IsTotal (ToiletRow × ℝ) distLE := ⟨fun p q => le_total p.2 q.2⟩

instance : IsTrans (ToiletRow × ℝ) distLE := ⟨fun _ _ _ h1 h2 => le_trans h1 h2⟩

/-- `find_nearby_toilets(lat, lon, top_n)`:

    if toilet_df.empty: return pd.DataFrame()
    toilet_df_copy["距離"] = ... haversine(lat, lon, row["緯度"], row["經度"]) ...
    return toilet_df_copy.sort_values("距離").head(top_n)
-/
noncomputable def find_nearby_toilets (toilet_df : List ToiletRow) (lat lon : ℝ)
    (top_n : ℕ) : List (ToiletRow × ℝ) :=
  if toilet_df.isEmpty then []
  else
    (List.insertionSort distLE
      (toilet_df.map (fun row => (row, haversine lat lon row.lat row.lon)))).take top_n

/-- The Python signature defaults `top_n` to 5. -/
noncomputable def find_nearby_toilets5 (toilet_df : List ToiletRow) (lat lon : ℝ) :
    List (ToiletRow × ℝ) :=
  find_nearby_toilets toilet_df lat lon 5

/-! ## LLM call wrapper (src/main.py lines 124-140)

`call_llm` performs `requests.get` (which raises a
`requests.exceptions.RequestException` on connection failure or timeout), then
`r.raise_for_status()` (which raises `HTTPError`, a `RequestException`, iff
the status code is in 400..599), then returns `r.text.strip()`.  The single
`except RequestException` arm returns the fixed apology string.  The upstream
interaction is modelled by its outcome: either a received response
(status, body) or a transport error. -/

inductive HttpOutcome where
  | response (status : ℕ) (text : String)
  | transport_error
deriving DecidableEq, Repr

def apology : String := "有一些問題發生 ... 請稍後再試"

/-- Python `str.strip()`: remove leading and trailing whitespace.  Modelled on
the character list so that it evaluates inside the kernel. -/
def strip (s : String) : String :=
  ⟨((s.data.dropWhile Char.isWhitespace).reverse.dropWhile Char.isWhitespace).reverse⟩

/-- Embedding of `call_llm`.  `user_id` and `query` are passed through to the
request and do not influence the control flow. -/
def call_llm (user_id query : String) (outcome : HttpOutcome) : String :=
  match user_id, query, outcome with
  | _, _, HttpOutcome.transport_error => apology
  | _, _, HttpOutcome.response status text =>
    if 400 ≤ status ∧ status < 600 then apology else strip text

/-! ## The 評分準備 branch of handle_message (src/main.py lines 382-414)

    if text.startswith("評分準備|"):
        try:
            _, toilet_name, toilet_address = text.split("|")
            user_selected_toilet[user_id] = {"name": ..., "address": ...}
            ... reply with the score prompt ...
        except ValueError:
            ... reply with "評分格式錯誤" ...

The tuple unpacking raises `ValueError` unless the split yields exactly three
parts, and the state write comes after the unpacking, so on a parse error the
`user_selected_toilet` mapping is untouched.  The mapping is modelled as a
function from user id to the optionally selected (name, address); the branch
returns the updated mapping and the reply text. -/

def rating_error_reply : String := "評分格式錯誤"

/-- Python `str.split(sep)` with a one-character separator: split at every
occurrence, keeping empty parts.  Modelled on the character list so that it
evaluates inside the kernel. -/
def splitChar (sep : Char) : List Char → List (List Char)
  | [] => [[]]
  | c :: rest =>
    let r := splitChar sep rest
    if c = sep then [] :: r else (c :: r.headI) :: r.tail

def pySplit (s : String) (sep : Char) : List String :=
  (splitChar sep s.data).map (fun cs => ⟨cs⟩)

/-- Python `str.startswith(pre)`. -/
def pyStartsWith (s pre : String) : Bool := pre.data.isPrefixOf s.data

def handle_rating_prepare (text user_id : String)
    (user_selected_toilet : String → Option (String × String)) :
    (String → Option (String × String)) × String :=
  match pySplit text '|' with
  | [_, toilet_name, toilet_address] =>
    (fun uid => if uid = user_id then some (toilet_name, toilet_address)
                else user_selected_toilet uid,
     "你選擇評分的廁所是：「" ++ toilet_name ++ "」，請給分（💩越多越讚）：")
  | _ => (user_selected_toilet, rating_error_reply)

theorem _is_conversation_turn_end_eq (current_msg : Message) (messages : List Message)
    (current_index : Nat) :
    _is_conversation_turn_end current_msg messages current_index
      = turn_end_next current_msg messages[current_index + 1]? := rfl

theorem fcL_nil (chunk : List Message) : fcL chunk [] = chunk := rfl

theorem fcL_cons (chunk : List Message) (m : Message) (rest : List Message) :
    fcL chunk (m :: rest)
      = if turn_end_next m rest.head? then
          (chunk ++ [m]).headI :: (chunk ++ [m]).getLastI :: fcL [] rest
        else
          fcL (chunk ++ [m]) rest := rfl

theorem drop_cons_next {α : Type} (l : List α) (i : Nat) (a : α) (t : List α)
    (h : l.drop i = a :: t) : l.drop (i + 1) = t ∧ l[i + 1]? = t.head? := by
  have hdrop : l.drop (i + 1) = t := by
    have := List.tail_drop l i
    rw [h] at this
    simpa using this.symm
  refine ⟨hdrop, ?_⟩
  rw [← List.head?_drop, hdrop]

theorem fc_fold_eq_fcL (messages : List Message) :
    ∀ (rest : List Message) (i : Nat) (res chunk : List Message),
      messages.drop i = rest →
      ((List.enumFrom i rest).foldl (fc_step messages) (res, chunk)).1
          ++ ((List.enumFrom i rest).foldl (fc_step messages) (res, chunk)).2
        = res ++ fcL chunk rest := by
  intro rest
  induction rest with
  | nil => intro i res chunk _; simp [fcL]
  | cons m t ih =>
    intro i res chunk hdrop
    obtain ⟨hdrop1, hnext⟩ := drop_cons_next messages i m t hdrop
    have hpred : _is_conversation_turn_end m messages i = turn_end_next m t.head? := by
      rw [_is_conversation_turn_end_eq, hnext]
    simp only [List.enumFrom, List.foldl_cons, fcL_cons]
    by_cases hc : turn_end_next m t.head? = true
    · rw [if_pos hc]
      rw [show fc_step messages (res, chunk) (i, m)
            = (res ++ [(chunk ++ [m]).headI, (chunk ++ [m]).getLastI], []) by
          simp [fc_step, hpred, hc]]
      rw [ih (i + 1) (res ++ [(chunk ++ [m]).headI, (chunk ++ [m]).getLastI]) [] hdrop1]
      simp
    · rw [if_neg hc]
      rw [show fc_step messages (res, chunk) (i, m) = (res, chunk ++ [m]) by
          simp only [fc_step, hpred]
          rw [if_neg hc]]
      exact ih (i + 1) res (chunk ++ [m]) hdrop1

/-- The loop of `filter_conversation` computes exactly the list-recursive pass
started with an empty chunk. -/
theorem filter_conversation_eq_fcL (messages : List Message) :
    filter_conversation messages = fcL [] messages := by
  have h := fc_fold_eq_fcL messages messages 0 [] [] (by simp)
  simpa [filter_conversation, List.enum] using h

/-! ### Basic facts about the closure predicate -/

theorem turn_end_next_none (m : Message) : turn_end_next m none = false := by
  unfold turn_end_next
  split <;> rfl

theorem turn_end_next_some_iff (m n : Message) :
    turn_end_next m (some n) = true
      ↔ m.role = Role.assistant ∧ m.tool_calls = [] ∧ n.role = Role.user
          ∧ n.is_reflect = false := by
  unfold turn_end_next
  cases hb1 : (m.role == Role.assistant) <;> cases hb2 : m.tool_calls.isEmpty <;>
    simp_all [List.isEmpty_iff]

theorem turn_end_next_of_not_assistant (m : Message) (o : Option Message)
    (h : m.role ≠ Role.assistant) : turn_end_next m o = false := by
  cases o with
  | none => exact turn_end_next_none m
  | some n =>
    by_contra hc
    exact h ((turn_end_next_some_iff m n).mp (by simpa using hc)).1

theorem turn_end_next_of_next_not_user (m n : Message)
    (h : n.role ≠ Role.user) : turn_end_next m (some n) = false := by
  by_contra hc
  exact h ((turn_end_next_some_iff m n).mp (by simpa using hc)).2.2.1

theorem headI_append_left (l l' : List Message) (h : l ≠ []) :
    (l ++ l').headI = l.headI := by
  cases l with
  | nil => exact absurd rfl h
  | cons a t => rfl

theorem getLastI_concat (l : List Message) (a : Message) :
    (l ++ [a]).getLastI = a := by
  rw [List.getLastI_eq_getLast?, List.getLast?_concat]

theorem spec_closes_at_eq_turn_end (messages : List Message) (i : Nat) (m : Message)
    (h : messages[i]? = some m) :
    spec_closes_at messages i = turn_end_next m messages[i + 1]? := by
  cases hn : messages[i + 1]? with
  | none =>
    simp [spec_closes_at, h, hn, turn_end_next_none]
  | some n =>
    cases hb1 : (m.role == Role.assistant) <;> cases hb2 : m.tool_calls.isEmpty <;>
      simp_all [spec_closes_at, turn_end_next]

theorem spec_compact_go_eq_fcL (messages : List Message) :
    ∀ (rest : List Message) (i : Nat) (chunk : List Message),
      messages.drop i = rest → spec_compact_go messages i chunk = fcL chunk rest := by
  intro rest
  induction rest with
  | nil =>
    intro i chunk hdrop
    have hlen : messages.length ≤ i := by
      rw [← List.drop_eq_nil_iff]
      exact hdrop
    rw [spec_compact_go]
    rw [dif_neg (by omega)]
    rfl
  | cons m t ih =>
    intro i chunk hdrop
    obtain ⟨hdrop1, hnext⟩ := drop_cons_next messages i m t hdrop
    have hsome : messages[i]? = some m := by
      rw [← List.head?_drop, hdrop]
      rfl
    obtain ⟨hlt, hget⟩ := List.getElem?_eq_some_iff.mp hsome
    have hclose : spec_closes_at messages i = turn_end_next m t.head? := by
      rw [spec_closes_at_eq_turn_end messages i m hsome, hnext]
    rw [spec_compact_go]
    rw [dif_pos hlt]
    simp only [hget, hclose, fcL_cons]
    by_cases hc : turn_end_next m t.head? = true
    · rw [if_pos hc, if_pos hc, ih (i + 1) [] hdrop1]
    · rw [if_neg hc, if_neg hc, ih (i + 1) (chunk ++ [m]) hdrop1]

/-- C1: `filter_conversation` makes a single left-to-right pass accumulating
messages into a chunk, closes a chunk exactly where the spec's closure
predicate holds (assistant message, no pending tool call, next message exists
and is a genuine user message), then emits the chunk's first and last message
and restarts at the next message, emitting any open chunk in full at end of
input; in particular the log [U:"A", AI:"B", U:"C", AI:"D"] compacts to the
same four messages in the same order. -/
theorem filter_conversation_follows_spec :
    (∀ messages : List Message, filter_conversation messages = spec_compact messages)
    ∧ filter_conversation example_ABCD = example_ABCD := by
  constructor
  · intro messages
    rw [filter_conversation_eq_fcL, spec_compact,
      spec_compact_go_eq_fcL messages messages 0 [] (by simp)]
  · decide

/-! ### Order preservation and message count -/

theorem turn_end_head_destruct (m : Message) (t : List Message)
    (hc : turn_end_next m t.head? = true) :
    m.role = Role.assistant ∧ m.tool_calls = [] ∧
      ∃ n t', t = n :: t' ∧ n.role = Role.user ∧ n.is_reflect = false := by
  cases t with
  | nil =>
    rw [List.head?_nil, turn_end_next_none] at hc
    exact absurd hc (by simp)
  | cons n t' =>
    have h := (turn_end_next_some_iff m n).mp (by simpa using hc)
    exact ⟨h.1, h.2.1, n, t', rfl, h.2.2.1, h.2.2.2⟩

/-- During a pass, the only way a closing chunk can have length 1 is at the very
start of the input: right after a closure the new chunk begins with the user
message that triggered it, and a user message never closes.  Under the
hypothesis that the pass does not close at its very first message, the output
is a sublist of `chunk ++ input`. -/
theorem fcL_sublist :
    ∀ (xs chunk : List Message),
      (chunk = [] → ∀ m t, xs = m :: t → turn_end_next m t.head? = false) →
      (fcL chunk xs).Sublist (chunk ++ xs) := by
  intro xs
  induction xs with
  | nil => intro chunk _; simp [fcL]
  | cons m t ih =>
    intro chunk hguard
    rw [fcL_cons]
    by_cases hc : turn_end_next m t.head? = true
    · have htail : (fcL [] t).Sublist t := by
        have hdest := turn_end_head_destruct m t hc
        obtain ⟨-, -, n, t', ht, hrole, -⟩ := hdest
        have := ih [] (fun _ m' t'' hmt => by
          rw [ht] at hmt
          rw [← (List.cons.injEq ..).mp hmt |>.1, ← (List.cons.injEq ..).mp hmt |>.2]
          exact turn_end_next_of_not_assistant n t'.head? (by rw [hrole]; simp))
        simpa using this
      cases hchunk : chunk with
      | nil =>
        exact absurd hc (by simp [hguard hchunk m t rfl])
      | cons c0 ctail =>
        rw [if_pos hc]
        have hhead : ((c0 :: ctail : List Message) ++ [m]).headI = c0 := rfl
        have hlast : ((c0 :: ctail : List Message) ++ [m]).getLastI = m :=
          getLastI_concat _ m
        rw [hhead, hlast]
        simp only [List.cons_append]
        refine List.Sublist.cons₂ c0 ?_
        exact (List.Sublist.cons₂ m htail).trans (List.sublist_append_right ctail (m :: t))
    · rw [if_neg hc]
      have := ih (chunk ++ [m]) (fun habs => absurd habs (by simp))
      simpa [List.append_assoc] using this

theorem spec_closes_at_zero_cons (m : Message) (t : List Message) :
    spec_closes_at (m :: t) 0 = turn_end_next m t.head? := by
  rw [spec_closes_at_eq_turn_end (m :: t) 0 m (by simp)]
  congr 1
  simp [List.getElem?_cons_succ, List.head?_eq_getElem?]

/-- C2 counterexample: on `[assistant:"B0", user:"C0"]` the compactor returns
three messages out of a two-message input, so the output length can exceed the
input length. -/
theorem filter_conversation_grows_cex :
    ¬ ((filter_conversation cex_assistant_first).length ≤ cex_assistant_first.length) := by
  decide

/-- C2 (amended): for every input that does not close a turn at its very first
message, the output of `filter_conversation` is a sublist of the input — the
emitted messages appear in input order — and in particular has at most as many
messages as the input. -/
theorem filter_conversation_sublist (messages : List Message)
    (h : spec_closes_at messages 0 = false) :
    (filter_conversation messages).Sublist messages
    ∧ (filter_conversation messages).length ≤ messages.length := by
  have hsub : (filter_conversation messages).Sublist messages := by
    rw [filter_conversation_eq_fcL]
    have := fcL_sublist messages [] (fun _ m t hmt => by
      rw [hmt, spec_closes_at_zero_cons] at h
      exact h)
    simpa using this
  exact ⟨hsub, hsub.length_le⟩

theorem filter_conversation_sublist_witness :
    spec_closes_at [msgU "hi", msgA "yo"] 0 = false
    ∧ (filter_conversation [msgU "hi", msgA "yo"]).Sublist [msgU "hi", msgA "yo"] :=
  ⟨by decide, (filter_conversation_sublist [msgU "hi", msgA "yo"] (by decide)).1⟩

/-- C3 counterexample: when the chunk that closes has length 1, its single
message is emitted twice, not once: `[assistant:"E", user:"F"]` compacts to
`[assistant:"E", assistant:"E", user:"F"]`. -/
theorem single_message_chunk_cex :
    filter_conversation cex_single_chunk = [msgA "E", msgA "E", msgU "F"]
    ∧ List.count (msgA "E") (filter_conversation cex_single_chunk) = 2 := by
  constructor <;> decide

/-- C3 (amended): when a chunk of length 1 closes (its single message is an
assistant message with no pending tool calls and the following message is a
genuine user message — which can only happen at the start of the input), the
code emits that message exactly twice: `result.extend([chunk[0], chunk[-1]])`
appends both ends of the singleton chunk. -/
theorem single_message_chunk_emits_twice (m : Message) (t : List Message)
    (hc : turn_end_next m t.head? = true) :
    filter_conversation (m :: t) = m :: m :: filter_conversation t := by
  rw [filter_conversation_eq_fcL, filter_conversation_eq_fcL, fcL_cons, if_pos hc]
  rfl

theorem single_message_chunk_emits_twice_witness :
    turn_end_next (msgA "G") ([msgU "H"] : List Message).head? = true
    ∧ filter_conversation [msgA "G", msgU "H"]
        = msgA "G" :: msgA "G" :: filter_conversation [msgU "H"] :=
  ⟨by decide, single_message_chunk_emits_twice (msgA "G") [msgU "H"] (by decide)⟩

/-- C4: a user message marked as a reflection never lets the preceding position
close a turn: whenever `messages[i+1]` is reflection-marked, the closure
predicate `_is_conversation_turn_end` is false at index `i` for every current
message, so the chunk stays open and the reflection is folded into it. -/
theorem reflection_never_closes (messages : List Message) (i : Nat)
    (next_msg : Message) (hnext : messages[i + 1]? = some next_msg)
    (hrefl : next_msg.is_reflect = true) :
    ∀ current_msg : Message,
      _is_conversation_turn_end current_msg messages i = false := by
  intro current_msg
  rw [_is_conversation_turn_end_eq, hnext]
  by_contra hc
  have h := (turn_end_next_some_iff current_msg next_msg).mp (by simpa using hc)
  exact absurd hrefl (by simp [h.2.2.2])

theorem reflection_never_closes_witness :
    _is_conversation_turn_end (msgA "hello") example_reflect 1 = false :=
  reflection_never_closes example_reflect 1 (msgR "note") (by decide) (by decide)
    (msgA "hello")

theorem fcL_of_chain :
    ∀ (xs chunk : List Message), List.Chain' no_close xs →
      fcL chunk xs = chunk ++ xs := by
  intro xs
  induction xs with
  | nil => intro chunk _; simp [fcL]
  | cons m t ih =>
    intro chunk h
    have hfalse : turn_end_next m t.head? = false := by
      cases t with
      | nil => exact turn_end_next_none m
      | cons n t' => exact (List.chain'_cons.mp h).1
    rw [fcL_cons, if_neg (by simp [hfalse]), ih (chunk ++ [m]) h.tail]
    simp

theorem fcL_head_of_ne_nil :
    ∀ (xs chunk : List Message), chunk ≠ [] →
      (fcL chunk xs).head? = some chunk.headI := by
  intro xs
  induction xs with
  | nil =>
    intro chunk h
    cases chunk with
    | nil => exact absurd rfl h
    | cons c0 ctail => rfl
  | cons m t ih =>
    intro chunk h
    rw [fcL_cons]
    by_cases hc : turn_end_next m t.head? = true
    · rw [if_pos hc]
      simp [headI_append_left chunk [m] h]
    · rw [if_neg hc, ih (chunk ++ [m]) (by simp)]
      rw [headI_append_left chunk [m] h]

/-- First-close decomposition of a pass: either no adjacent pair of the input
closes (and the pass appends the input to the chunk unchanged), or the input
splits at the first closing pair, the pass emits the head of the accumulated
material and the closing assistant message, and restarts on the genuine user
message that triggered the closure. -/
theorem fcL_decomp (xs : List Message) :
    List.Chain' no_close xs
    ∨ ∃ pre a u post, xs = pre ++ a :: u :: post
        ∧ a.role = Role.assistant ∧ a.tool_calls = []
        ∧ u.role = Role.user ∧ u.is_reflect = false
        ∧ ∀ chunk, fcL chunk xs = (chunk ++ pre ++ [a]).headI :: a :: fcL [] (u :: post) := by
  induction xs with
  | nil => left; exact List.chain'_nil
  | cons m t ih =>
    by_cases hc : turn_end_next m t.head? = true
    · right
      obtain ⟨hA, hTC, n, t', ht, hrole, hrefl⟩ := turn_end_head_destruct m t hc
      refine ⟨[], m, n, t', by simp [ht], hA, hTC, hrole, hrefl, ?_⟩
      intro chunk
      rw [fcL_cons, if_pos hc, ht, getLastI_concat]
      simp
    · cases ih with
      | inl hchain =>
        left
        cases t with
        | nil => simp
        | cons n t' =>
          rw [List.chain'_cons]
          exact ⟨by simpa using hc, hchain⟩
      | inr hdec =>
        right
        obtain ⟨pre, a, u, post, hxs, hA, hTC, hrole, hrefl, hfc⟩ := hdec
        refine ⟨m :: pre, a, u, post, by simp [hxs], hA, hTC, hrole, hrefl, ?_⟩
        intro chunk
        rw [fcL_cons, if_neg hc, hfc (chunk ++ [m])]
        simp

theorem fcL_idem_aux :
    ∀ (n : Nat) (xs : List Message), xs.length ≤ n →
      fcL [] (fcL [] xs) = fcL [] xs := by
  intro n
  induction n with
  | zero =>
    intro xs hlen
    rw [List.length_eq_zero.mp (Nat.le_zero.mp hlen)]
    rfl
  | succ n ih =>
    intro xs hlen
    cases fcL_decomp xs with
    | inl hchain =>
      have h1 : fcL [] xs = xs := by simpa using fcL_of_chain xs [] hchain
      rw [h1, h1]
    | inr hdec =>
      obtain ⟨pre, a, u, post, hxs, hA, hTC, hrole, hrefl, hfc⟩ := hdec
      have hY : fcL [] (u :: post) = fcL [u] post := by
        rw [fcL_cons,
          if_neg (by simp [turn_end_next_of_not_assistant u post.head?
            (by rw [hrole]; simp)])]
        rfl
      have hYhead : (fcL [] (u :: post)).head? = some u := by
        rw [hY, fcL_head_of_ne_nil post [u] (by simp)]
        rfl
      have hidem : fcL [] (fcL [] (u :: post)) = fcL [] (u :: post) := by
        apply ih (u :: post)
        rw [hxs] at hlen
        simp only [List.length_append, List.length_cons] at hlen
        simp only [List.length_cons]
        omega
      have hturn_aY : turn_end_next a (fcL [] (u :: post)).head? = true := by
        rw [hYhead]
        exact (turn_end_next_some_iff a u).mpr ⟨hA, hTC, hrole, hrefl⟩
      have h0 := hfc []
      simp only [List.nil_append] at h0
      rw [h0, fcL_cons,
        if_neg (by simp [turn_end_next_of_next_not_user _ a (by rw [hA]; simp)]),
        fcL_cons, if_pos hturn_aY, hidem]
      rfl

theorem fcL_idem (xs : List Message) : fcL [] (fcL [] xs) = fcL [] xs :=
  fcL_idem_aux xs.length xs le_rfl

/-- C5: `filter_conversation` is idempotent on its own output: a second pass
over an already-compacted log closes exactly at the same emitted turn ends and
introduces no new closing boundary, so `filter_conversation
(filter_conversation x) = filter_conversation x` — in particular for every
input already in first/last-compacted form. -/
theorem filter_conversation_idem (x : List Message) :
    filter_conversation (filter_conversation x) = filter_conversation x := by
  rw [filter_conversation_eq_fcL x, filter_conversation_eq_fcL (fcL [] x)]
  exact fcL_idem x

/-- The haversine intermediate `a` is symmetric in the two coordinates. -/
theorem hav_a_symm (p q u v : ℝ) :
    Real.sin (radians (u - p) / 2) ^ 2
        + Real.cos (radians p) * Real.cos (radians u) * Real.sin (radians (v - q) / 2) ^ 2
      = Real.sin (radians (p - u) / 2) ^ 2
        + Real.cos (radians u) * Real.cos (radians p) * Real.sin (radians (q - v) / 2) ^ 2 := by
  have h1 : radians (u - p) = -(radians (p - u)) := by unfold radians; ring
  have h2 : radians (v - q) = -(radians (q - v)) := by unfold radians; ring
  rw [h1, h2, neg_div, Real.sin_neg, neg_div, Real.sin_neg]
  ring

theorem atan2_nonneg (y x : ℝ) (hy : 0 ≤ y) : 0 ≤ atan2 y x :=
  Complex.arg_nonneg_iff.mpr hy

theorem haversine_symm (lat1 lon1 lat2 lon2 : ℝ) :
    haversine lat1 lon1 lat2 lon2 = haversine lat2 lon2 lat1 lon1 := by
  simp only [haversine]
  rw [hav_a_symm lat1 lon1 lat2 lon2]

theorem haversine_self (lat lon : ℝ) : haversine lat lon lat lon = 0 := by
  have hone : (⟨1, 0⟩ : ℂ) = 1 := by
    apply Complex.ext <;> simp
  simp [haversine, radians, atan2, hone, Complex.arg_one]

theorem haversine_nonneg (lat1 lon1 lat2 lon2 : ℝ) :
    0 ≤ haversine lat1 lon1 lat2 lon2 := by
  simp only [haversine]
  have h := atan2_nonneg
    (Real.sqrt (Real.sin (radians (lat2 - lat1) / 2) ^ 2
      + Real.cos (radians lat1) * Real.cos (radians lat2)
        * Real.sin (radians (lon2 - lon1) / 2) ^ 2))
    (Real.sqrt (1 - (Real.sin (radians (lat2 - lat1) / 2) ^ 2
      + Real.cos (radians lat1) * Real.cos (radians lat2)
        * Real.sin (radians (lon2 - lon1) / 2) ^ 2)))
    (Real.sqrt_nonneg _)
  have h2 : (0 : ℝ) ≤ 2 := by norm_num
  nlinarith

theorem _haversine_meters_symm (lat1 lon1 lat2 lon2 : ℝ) :
    _haversine_meters lat1 lon1 lat2 lon2 = _haversine_meters lat2 lon2 lat1 lon1 := by
  simp only [_haversine_meters]
  rw [hav_a_symm lat1 lon1 lat2 lon2]

theorem _haversine_meters_self (lat lon : ℝ) : _haversine_meters lat lon lat lon = 0 := by
  simp [_haversine_meters, radians]

theorem _haversine_meters_nonneg (lat1 lon1 lat2 lon2 : ℝ) :
    0 ≤ _haversine_meters lat1 lon1 lat2 lon2 := by
  simp only [_haversine_meters]
  have h := Real.arcsin_nonneg.mpr
    (Real.sqrt_nonneg (Real.sin (radians (lat2 - lat1) / 2) ^ 2
      + Real.cos (radians lat1) * Real.cos (radians lat2)
        * Real.sin (radians (lon2 - lon1) / 2) ^ 2))
  nlinarith

/-- C8: both haversine implementations are symmetric in their two coordinate
arguments, give distance 0 from any coordinate to itself, and return a
non-negative number of meters (`haversine` with R = 6371 km scaled by 1000,
`_haversine_meters` with R = 6,371,000 m). -/
theorem haversine_both_symm_self_nonneg (lat1 lon1 lat2 lon2 : ℝ) :
    haversine lat1 lon1 lat2 lon2 = haversine lat2 lon2 lat1 lon1
    ∧ _haversine_meters lat1 lon1 lat2 lon2 = _haversine_meters lat2 lon2 lat1 lon1
    ∧ haversine lat1 lon1 lat1 lon1 = 0
    ∧ _haversine_meters lat1 lon1 lat1 lon1 = 0
    ∧ 0 ≤ haversine lat1 lon1 lat2 lon2
    ∧ 0 ≤ _haversine_meters lat1 lon1 lat2 lon2 :=
  ⟨haversine_symm lat1 lon1 lat2 lon2, _haversine_meters_symm lat1 lon1 lat2 lon2,
    haversine_self lat1 lon1, _haversine_meters_self lat1 lon1,
    haversine_nonneg lat1 lon1 lat2 lon2, _haversine_meters_nonneg lat1 lon1 lat2 lon2⟩

/-- C6: for every query and table, `find_nearby_toilets` returns exactly
min(table size, requested count) records, ordered by non-decreasing haversine
distance from the query, each carrying its haversine distance; the requested
count defaults to 5; an empty table yields an empty result. -/
theorem find_nearby_toilets_spec (toilet_df : List ToiletRow) (lat lon : ℝ)
    (top_n : ℕ) :
    (find_nearby_toilets toilet_df lat lon top_n).length = min toilet_df.length top_n
    ∧ List.Sorted distLE (find_nearby_toilets toilet_df lat lon top_n)
    ∧ (∀ p ∈ find_nearby_toilets toilet_df lat lon top_n,
        p.2 = haversine lat lon p.1.lat p.1.lon)
    ∧ find_nearby_toilets [] lat lon top_n = []
    ∧ find_nearby_toilets5 toilet_df lat lon = find_nearby_toilets toilet_df lat lon 5 := by
  refine ⟨?_, ?_, ?_, rfl, rfl⟩
  · unfold find_nearby_toilets
    by_cases h : toilet_df.isEmpty
    · rw [if_pos h, List.isEmpty_iff.mp h]
      simp
    · rw [if_neg h]
      simp [List.length_take, Nat.min_comm]
  · unfold find_nearby_toilets
    by_cases h : toilet_df.isEmpty
    · rw [if_pos h]
      exact List.sorted_nil
    · rw [if_neg h]
      exact (List.sorted_insertionSort distLE _).sublist (List.take_sublist _ _)
  · intro p hp
    unfold find_nearby_toilets at hp
    by_cases h : toilet_df.isEmpty
    · rw [if_pos h] at hp
      exact absurd hp (List.not_mem_nil p)
    · rw [if_neg h] at hp
      have hmem := (List.take_sublist _ _).mem hp
      rw [List.mem_insertionSort] at hmem
      obtain ⟨row, -, hrow⟩ := List.mem_map.mp hmem
      rw [← hrow]

/-- C9 counterexample: a 304 response is not 2xx, yet `raise_for_status` only
raises for 4xx/5xx, so `call_llm` returns the (stripped) body rather than the
apology string. -/
theorem call_llm_non2xx_cex :
    call_llm "user1" "query1" (HttpOutcome.response 304 " pong ") = "pong"
    ∧ ¬ (200 ≤ 304 ∧ 304 < 300)
    ∧ ("pong" : String) ≠ apology := by
  refine ⟨?_, by omega, by decide⟩
  decide

/-- C9 (amended): `call_llm` never propagates an upstream failure: on a
transport failure (connection error or timeout) and on any 4xx/5xx status it
returns the fixed apology string; on any other received response it returns
the response body stripped of surrounding whitespace. -/
theorem call_llm_error_handling (user_id query text : String) (status : ℕ) :
    call_llm user_id query HttpOutcome.transport_error = apology
    ∧ (400 ≤ status → status < 600 →
        call_llm user_id query (HttpOutcome.response status text) = apology)
    ∧ (status < 400 ∨ 600 ≤ status →
        call_llm user_id query (HttpOutcome.response status text) = strip text) := by
  refine ⟨rfl, ?_, ?_⟩
  · intro h1 h2
    simp [call_llm, h1, h2]
  · intro h
    have : ¬ (400 ≤ status ∧ status < 600) := by omega
    simp [call_llm, this]

theorem call_llm_error_handling_witness :
    call_llm "u" "q" HttpOutcome.transport_error = apology
    ∧ call_llm "u" "q" (HttpOutcome.response 500 "oops") = apology
    ∧ call_llm "u" "q" (HttpOutcome.response 200 " ok ") = strip " ok " :=
  ⟨(call_llm_error_handling "u" "q" "x" 0).1,
    (call_llm_error_handling "u" "q" "oops" 500).2.1 (by omega) (by omega),
    (call_llm_error_handling "u" "q" " ok " 200).2.2 (Or.inl (by omega))⟩

/-- C10: if a message starting with "評分準備|" does not split on "|" into
exactly three parts, the handler replies "評分格式錯誤" and the per-user
`user_selected_toilet` mapping is left unchanged. -/
theorem handle_rating_prepare_parse_error (text user_id : String)
    (user_selected_toilet : String → Option (String × String))
    (_hstart : pyStartsWith text "評分準備|" = true)
    (hsplit : (pySplit text '|').length ≠ 3) :
    (handle_rating_prepare text user_id user_selected_toilet).2 = rating_error_reply
    ∧ (handle_rating_prepare text user_id user_selected_toilet).1
        = user_selected_toilet := by
  unfold handle_rating_prepare
  rcases hl : pySplit text '|' with - | ⟨a, - | ⟨b, - | ⟨c, - | d⟩⟩⟩
  · exact ⟨rfl, rfl⟩
  · exact ⟨rfl, rfl⟩
  · exact ⟨rfl, rfl⟩
  · rw [hl] at hsplit
    simp at hsplit
  · exact ⟨rfl, rfl⟩

theorem handle_rating_prepare_parse_error_witness :
    pyStartsWith "評分準備|甲|乙|丙" "評分準備|" = true
    ∧ (pySplit "評分準備|甲|乙|丙" '|').length ≠ 3
    ∧ (handle_rating_prepare "評分準備|甲|乙|丙" "u9" (fun _ => none)).2
        = rating_error_reply
    ∧ (handle_rating_prepare "評分準備|甲|乙|丙" "u9" (fun _ => none)).1
        = (fun _ => none) :=
  ⟨by decide, by decide,
    (handle_rating_prepare_parse_error "評分準備|甲|乙|丙" "u9" (fun _ => none)
      (by decide) (by decide)).1,
    (handle_rating_prepare_parse_error "評分準備|甲|乙|丙" "u9" (fun _ => none)
      (by decide) (by decide)).2⟩

end ParkingBot
